import Mathlib

/-!
Verification of the TSP route-optimization core of the `aws-serverless-comparison`
repository.

The algorithmic core lives in two Lambda source files,
`classical-serverless/lambda-src/classical-optimizer.py` and
`quantum-serverless/lambda-src/quantum-optimizer.py`.  Both share the same
Euclidean distance function and the same nearest-neighbor loop; the classical
file adds a brute-force permutation search, the quantum file adds a best-of-k
sampled constructor and a fallback-driven handler.

Embedding choices:
* Python floats are modelled as real numbers; `x ** 0.5` on a non-negative
  argument is `Real.sqrt`.
* The solvers only consult the city list through its length `n` and the
  distance between indexed cities, so each solver is embedded as a core
  function over `(n : Nat)` and an index metric `d : Nat -> Nat -> B` for an
  arbitrary linearly ordered additive monoid `B` (instantiable at `Rat`/`Nat`
  for concrete evaluation), plus a named wrapper at the Euclidean metric that
  mirrors the Python signature.
* `min(unvisited, key=...)` over a CPython set of small ints iterates the
  candidates in increasing order and keeps the first strict minimum, so it is
  embedded as a left fold over the ascending list of unvisited indices.
* `np.random.randint(0, n)` inside `quantum_inspired_tsp` is modelled by an
  injected stream `starts : Nat -> Nat` of start indices (the spec itself asks
  for an injectable random source).
* The DynamoDB `put_item` in `store_result` of the quantum handler is fallible
  external I/O and re-raises on failure; it is modelled by a boolean
  `storeOk` parameter of the handler.  (The classical handler swallows the
  same failure, so it needs no such parameter.)
-/

/-- A city is an (x, y) coordinate pair; Python floats become reals. -/
abbrev City := ℝ × ℝ

/-- `calculate_distance` from both optimizer files:
`((city1[0] - city2[0]) ** 2 + (city1[1] - city2[1]) ** 2) ** 0.5`. -/
noncomputable def calculate_distance (city1 city2 : City) : ℝ :=
  Real.sqrt ((city1.1 - city2.1) ^ 2 + (city1.2 - city2.2) ^ 2)

/-- Index metric induced by a city list: the distance `cities[i]` to
`cities[j]`.  All call sites in the source use indices below the length, where
`getD` agrees with Python indexing. -/
noncomputable def cityDist (cities : List City) (i j : ℕ) : ℝ :=
  calculate_distance (cities.getD i (0, 0)) (cities.getD j (0, 0))

/-- The route/distance dict returned by every solver. -/
structure Solution (B : Type*) where
  route : List ℕ
  distance : B
  deriving Repr, DecidableEq

variable {B : Type*} [LinearOrder B] [AddCommMonoid B]

/-- Sum of `d` along consecutive hops starting at `a`:
`d a b1 + d b1 b2 + ...`. -/
def pathDist (d : ℕ → ℕ → B) : ℕ → List ℕ → B
  | _, [] => 0
  | a, b :: rest => d a b + pathDist d b rest

/-- `sum(calculate_distance(route[i], route[i+1]) for i in range(len(route)-1))`,
the consecutive-pairs sum used by `brute_force_tsp` and by the round-trip
invariant of the spec. -/
def route_distance (d : ℕ → ℕ → B) : List ℕ → B
  | [] => 0
  | a :: rest => pathDist d a rest

/-- `min(candidates, key=key)` over the nonempty candidate set `x :: xs`:
left fold keeping the first strict minimum, exactly CPython `min`. -/
def argminKey (key : ℕ → B) (x : ℕ) (xs : List ℕ) : ℕ :=
  xs.foldl (fun best c => if key c < key best then c else best) x

omit [AddCommMonoid B] in
theorem argminKey_mem (key : ℕ → B) (x : ℕ) (xs : List ℕ) :
    argminKey key x xs ∈ x :: xs := by
  unfold argminKey
  induction xs generalizing x with
  | nil => simp
  | cons y ys ih =>
    simp only [List.foldl_cons]
    have h := ih (if key y < key x then y else x)
    by_cases hc : key y < key x <;> simp [hc] at h ⊢ <;> tauto

omit [AddCommMonoid B] in
theorem erase_argmin_length (key : ℕ → B) (x : ℕ) (xs : List ℕ) :
    ((x :: xs).erase (argminKey key x xs)).length < (x :: xs).length := by
  have hm := argminKey_mem key x xs
  have h := List.length_erase_add_one hm
  omega

/-- The `while unvisited:` loop of `nearest_neighbor_tsp_from_start`
(also the loop body of the classical `nearest_neighbor_tsp`):
pick the nearest unvisited city, accumulate the hop distance, recurse on the
remaining set; once the set is empty, close the tour back to `start`.
Returns the tail of the route (everything after the current city) and the
distance accumulated from the current city onwards. -/
def nnLoop (d : ℕ → ℕ → B) (start : ℕ) (current : ℕ) (unvisited : List ℕ) :
    List ℕ × B :=
  match unvisited with
  | [] => ([start], d current start)
  | x :: xs =>
    let nearest := argminKey (d current) x xs
    let r := nnLoop d start nearest ((x :: xs).erase nearest)
    (nearest :: r.1, d current nearest + r.2)
termination_by unvisited.length
decreasing_by
  exact erase_argmin_length _ _ _

/-- Core of `nearest_neighbor_tsp_from_start(cities, start_city)`:
empty input gives an empty route; otherwise start at `start`, visit the
remaining indices greedily, and return to `start`. -/
def nnFrom (n : ℕ) (d : ℕ → ℕ → B) (start : ℕ) : Solution B :=
  if n = 0 then ⟨[], 0⟩
  else
    let r := nnLoop d start start ((List.range n).filter (fun i => i ≠ start))
    ⟨start :: r.1, r.2⟩

/-- `nearest_neighbor_tsp_from_start` of the quantum optimizer, at the
Euclidean metric. -/
noncomputable def nearest_neighbor_tsp_from_start (cities : List City)
    (start_city : ℕ) : Solution ℝ :=
  nnFrom cities.length (cityDist cities) start_city

/-- `nearest_neighbor_tsp` as it appears in both optimizer files: the same
greedy loop anchored at city 0. -/
noncomputable def nearest_neighbor_tsp (cities : List City) : Solution ℝ :=
  nearest_neighbor_tsp_from_start cities 0

/-- Loop body of `brute_force_tsp`: keep the incumbent `(best_route,
min_distance)` unless the candidate route is strictly shorter. -/
def bfStep (d : ℕ → ℕ → B) (b : List ℕ × B) (c : List ℕ) : List ℕ × B :=
  if route_distance d c < b.2 then (c, route_distance d c) else b

/-- Core of `brute_force_tsp(cities)` from the classical optimizer:
for `n <= 1` return `list(range(n))` with distance 0; otherwise enumerate all
permutations of `[1, ..., n-1]`, form the closed route `[0] + perm + [0]`,
and keep the first route realizing the strict minimum distance (Python seeds
with float inf, so the first candidate always replaces the seed; this is
embedded by seeding the fold with the first candidate). -/
def bruteForceCore (n : ℕ) (d : ℕ → ℕ → B) : Solution B :=
  if n ≤ 1 then ⟨List.range n, 0⟩
  else
    match (List.range' 1 (n - 1)).permutations.map (fun p => 0 :: (p ++ [0])) with
    | [] => ⟨[], 0⟩
    | r :: rs =>
      let best := rs.foldl (bfStep d) (r, route_distance d r)
      ⟨best.1, best.2⟩

/-- `brute_force_tsp` at the Euclidean metric. -/
noncomputable def brute_force_tsp (cities : List City) : Solution ℝ :=
  bruteForceCore cities.length (cityDist cities)

/-- `iterations = min(shots // 100, 50)` from `quantum_inspired_tsp`. -/
def qitIterations (shots : ℕ) : ℕ := min (shots / 100) 50

/-- One iteration of the `quantum_inspired_tsp` loop: run the greedy
constructor from the sampled start `starts i` and keep it only if strictly
better than the incumbent (`None` always loses to the first run). -/
def qitStep (n : ℕ) (d : ℕ → ℕ → B) (starts : ℕ → ℕ)
    (best : Option (Solution B)) (i : ℕ) : Option (Solution B) :=
  let s := nnFrom n d (starts i)
  match best with
  | none => some s
  | some b => if s.distance < b.distance then some s else some b

/-- Core of `quantum_inspired_tsp(cities, shots)`: run the greedy constructor
from `iterations` sampled start cities (the sampled starts are injected as the
stream `starts`), keeping the strictly best solution; `best_solution` starts
as `None` and is returned as-is, so zero iterations yield `none`. -/
def quantumInspiredCore (n : ℕ) (d : ℕ → ℕ → B) (shots : ℕ)
    (starts : ℕ → ℕ) : Option (Solution B) :=
  (List.range (qitIterations shots)).foldl (qitStep n d starts) none

/-- `quantum_inspired_tsp` at the Euclidean metric. -/
noncomputable def quantum_inspired_tsp (cities : List City) (shots : ℕ)
    (starts : ℕ → ℕ) : Option (Solution ℝ) :=
  quantumInspiredCore cities.length (cityDist cities) shots starts

/-- The closed-tour invariant of the spec: length `n + 1`, first entry equals
last entry, and the first `n` entries are a permutation of `[0, n)`. -/
def isClosedTour (route : List ℕ) (n : ℕ) : Prop :=
  route.length = n + 1 ∧ route.head? = route.getLast? ∧
    (route.take n).Perm (List.range n)

/-- Responses of the Lambda handlers, reduced to the fields the spec talks
about: status code, reported algorithm name, and the solution payload. -/
inductive LambdaResponse (B : Type*) where
  | success (statusCode : ℕ) (algorithm : String) (solution : Solution B)
  | failure (statusCode : ℕ) (error : String)
  deriving DecidableEq

/-- The reported `algorithm` field of a successful response. -/
def LambdaResponse.reported : LambdaResponse B → Option String
  | .success _ a _ => some a
  | .failure _ _ => none

/-- The HTTP status code of a response. -/
def LambdaResponse.status : LambdaResponse B → ℕ
  | .success c _ _ => c
  | .failure c _ => c

/-- `lambda_handler` of the classical optimizer, after request parsing:
fewer than 2 cities gives a 400; `nearest_neighbor` runs the greedy solver;
`brute_force` runs the exact solver only when `n <= 8`; everything else falls
through to the greedy solver.  The `algorithm` field of the response is the
requested name, unchanged.  DynamoDB failures are swallowed
(`# Continue without failing the request`), so no store flag is needed. -/
noncomputable def lambda_handler_classical (cities : List City)
    (algorithm : String) : LambdaResponse ℝ :=
  if cities.length < 2 then .failure 400 "At least 2 cities are required"
  else
    let solution :=
      if algorithm = "nearest_neighbor" then nearest_neighbor_tsp cities
      else if algorithm = "brute_force" ∧ cities.length ≤ 8 then
        brute_force_tsp cities
      else nearest_neighbor_tsp cities
    .success 200 algorithm solution

/-- `lambda_handler` of the quantum optimizer, after request parsing:
fewer than 2 cities gives a 400; more cities than `max_qubits` forces the
requested algorithm to `classical_fallback` before dispatch; the
`classical_fallback` branch runs the greedy solver and cannot fail; `qaoa`,
`vqe` and any unknown name all run `quantum_inspired_tsp` (the two quantum
wrappers differ only in metadata), which yields `None` when zero trials run
— attaching metadata to `None` then raises, the handler catches the failure
and substitutes the greedy solution under the name `classical_fallback`.
Finally `store_result` re-raises persistence failures, which the outer
handler turns into a 500; `storeOk` models that external outcome. -/
noncomputable def lambda_handler_quantum (maxQubits : ℕ) (cities : List City)
    (algorithm : String) (shots : ℕ) (starts : ℕ → ℕ) (storeOk : Bool) :
    LambdaResponse ℝ :=
  if cities.length < 2 then .failure 400 "At least 2 cities are required"
  else
    let algorithm := if maxQubits < cities.length then "classical_fallback"
      else algorithm
    let attempt : Option (Solution ℝ) :=
      if algorithm = "classical_fallback" then some (nearest_neighbor_tsp cities)
      else quantum_inspired_tsp cities shots starts
    match attempt with
    | some sol =>
      if storeOk then .success 200 algorithm sol
      else .failure 500 "Internal server error"
    | none =>
      if storeOk then .success 200 "classical_fallback" (nearest_neighbor_tsp cities)
      else .failure 500 "Internal server error"

/-! ## Structure of the nearest-neighbor loop -/

theorem nnLoop_spec (d : ℕ → ℕ → B) (start : ℕ) :
    ∀ (N : ℕ) (u : List ℕ), u.length ≤ N → ∀ current,
      (∃ t, (nnLoop d start current u).1 = t ++ [start] ∧ t.Perm u) ∧
      (nnLoop d start current u).2 =
        pathDist d current (nnLoop d start current u).1 := by
  intro N
  induction N with
  | zero =>
    intro u hu current
    have hnil : u = [] := List.length_eq_zero.mp (Nat.le_zero.mp hu)
    subst hnil
    refine ⟨⟨[], by simp [nnLoop], List.Perm.refl _⟩, ?_⟩
    simp [nnLoop, pathDist]
  | succ N ih =>
    intro u hu current
    match u with
    | [] =>
      refine ⟨⟨[], by simp [nnLoop], List.Perm.refl _⟩, ?_⟩
      simp [nnLoop, pathDist]
    | x :: xs =>
      have hm : argminKey (d current) x xs ∈ x :: xs := argminKey_mem _ _ _
      have hlen : ((x :: xs).erase (argminKey (d current) x xs)).length ≤ N := by
        have h := List.length_erase_add_one hm
        simp only [List.length_cons] at h hu
        omega
      obtain ⟨⟨t, ht, hperm⟩, hdist⟩ := ih _ hlen (argminKey (d current) x xs)
      have hunf : nnLoop d start current (x :: xs) =
          (argminKey (d current) x xs ::
            (nnLoop d start (argminKey (d current) x xs)
              ((x :: xs).erase (argminKey (d current) x xs))).1,
           d current (argminKey (d current) x xs) +
            (nnLoop d start (argminKey (d current) x xs)
              ((x :: xs).erase (argminKey (d current) x xs))).2) := by
        rw [nnLoop]
      constructor
      · refine ⟨argminKey (d current) x xs :: t, ?_, ?_⟩
        · rw [hunf]; simp [ht]
        · exact (hperm.cons _).trans (List.perm_cons_erase hm).symm
      · rw [hunf]
        simp only [pathDist, hdist]

theorem filter_ne_eq_erase (n start : ℕ) :
    (List.range n).filter (fun i => i ≠ start) = (List.range n).erase start := by
  rw [List.Nodup.erase_eq_filter (List.nodup_range n) start]
  exact (List.filter_congr (fun a _ => by simp [bne, Bool.beq_eq_decide_eq])).symm

theorem nnFrom_route_shape (n : ℕ) (d : ℕ → ℕ → B) (start : ℕ) (hn : n ≠ 0) :
    ∃ t, (nnFrom n d start).route = (start :: t) ++ [start] ∧
      t.Perm ((List.range n).erase start) := by
  have hspec := (nnLoop_spec d start ((List.range n).filter
      (fun i => i ≠ start)).length ((List.range n).filter
      (fun i => i ≠ start)) le_rfl start).1
  obtain ⟨t, ht, hperm⟩ := hspec
  refine ⟨t, ?_, ?_⟩
  · simp only [nnFrom, if_neg hn, ht]
    simp
  · rw [← filter_ne_eq_erase]
    exact hperm

theorem nnFrom_closedTour (n : ℕ) (d : ℕ → ℕ → B) (start : ℕ)
    (hs : start < n) : isClosedTour (nnFrom n d start).route n := by
  have hn : n ≠ 0 := by omega
  obtain ⟨t, ht, hperm⟩ := nnFrom_route_shape n d start hn
  have hmem : start ∈ List.range n := List.mem_range.mpr hs
  have herase : ((List.range n).erase start).length + 1 = n := by
    have h := List.length_erase_add_one hmem
    simpa using h
  have htlen : t.length = n - 1 := by
    have := hperm.length_eq
    omega
  have hclen : (start :: t).length = n := by
    simp [htlen]; omega
  refine ⟨?_, ?_, ?_⟩
  · rw [ht]
    simp [htlen]; omega
  · rw [ht]
    rw [List.getLast?_concat]
    simp
  · rw [ht, List.take_left' hclen]
    exact ((hperm.cons start).trans (List.perm_cons_erase hmem).symm)

theorem nnFrom_distance (n : ℕ) (d : ℕ → ℕ → B) (start : ℕ) :
    (nnFrom n d start).distance = route_distance d (nnFrom n d start).route := by
  by_cases hn : n = 0
  · subst hn; simp [nnFrom, route_distance]
  · have hspec := (nnLoop_spec d start ((List.range n).filter
        (fun i => i ≠ start)).length ((List.range n).filter
        (fun i => i ≠ start)) le_rfl start).2
    simp only [nnFrom, if_neg hn]
    simpa [route_distance] using hspec

/-! ## Structure of the brute-force search -/

theorem bfFold_spec (d : ℕ → ℕ → B) (rs : List (List ℕ)) :
    ∀ (b : List ℕ × B), b.2 = route_distance d b.1 →
      (rs.foldl (bfStep d) b).2 = route_distance d (rs.foldl (bfStep d) b).1 ∧
      ((rs.foldl (bfStep d) b).1 = b.1 ∨ (rs.foldl (bfStep d) b).1 ∈ rs) ∧
      (rs.foldl (bfStep d) b).2 ≤ b.2 ∧
      ∀ c ∈ rs, (rs.foldl (bfStep d) b).2 ≤ route_distance d c := by
  induction rs with
  | nil => intro b hb; exact ⟨hb, Or.inl rfl, le_rfl, by simp⟩
  | cons c cs ih =>
    intro b hb
    simp only [List.foldl_cons]
    by_cases hc : route_distance d c < b.2
    · have hstep : bfStep d b c = (c, route_distance d c) := by
        simp [bfStep, hc]
      rw [hstep]
      obtain ⟨h1, h2, h3, h4⟩ := ih (c, route_distance d c) rfl
      refine ⟨h1, ?_, ?_, ?_⟩
      · rcases h2 with h | h
        · exact Or.inr (by simp [h])
        · exact Or.inr (List.mem_cons_of_mem _ h)
      · exact le_trans h3 (le_of_lt hc)
      · intro e he
        rcases List.mem_cons.mp he with rfl | he
        · exact h3
        · exact h4 e he
    · have hstep : bfStep d b c = b := by simp [bfStep, hc]
      rw [hstep]
      obtain ⟨h1, h2, h3, h4⟩ := ih b hb
      refine ⟨h1, ?_, h3, ?_⟩
      · rcases h2 with h | h
        · exact Or.inl h
        · exact Or.inr (List.mem_cons_of_mem _ h)
      · intro e he
        rcases List.mem_cons.mp he with rfl | he
        · exact le_trans h3 (le_of_not_lt hc)
        · exact h4 e he

theorem bruteForceCore_spec (n : ℕ) (d : ℕ → ℕ → B) (hn : 2 ≤ n) :
    ∃ p, p.Perm (List.range' 1 (n - 1)) ∧
      (bruteForceCore n d).route = 0 :: (p ++ [0]) ∧
      (bruteForceCore n d).distance = route_distance d (bruteForceCore n d).route ∧
      ∀ q, q.Perm (List.range' 1 (n - 1)) →
        (bruteForceCore n d).distance ≤ route_distance d (0 :: (q ++ [0])) := by
  have hn1 : ¬ n ≤ 1 := by omega
  have hself : List.range' 1 (n - 1) ∈ (List.range' 1 (n - 1)).permutations :=
    List.mem_permutations.mpr (List.Perm.refl _)
  unfold bruteForceCore
  rw [if_neg hn1]
  split
  next heq =>
    exfalso
    rw [List.map_eq_nil_iff] at heq
    rw [heq] at hself
    simp at hself
  next r rs heq =>
    obtain ⟨h1, h2, h3, h4⟩ := bfFold_spec d rs (r, route_distance d r) rfl
    have hbmem : (rs.foldl (bfStep d) (r, route_distance d r)).1 ∈ r :: rs := by
      rcases h2 with h | h
      · rw [h]; exact List.mem_cons_self r rs
      · exact List.mem_cons_of_mem _ h
    rw [← heq] at hbmem
    obtain ⟨p, hp, hfp⟩ := List.mem_map.mp hbmem
    refine ⟨p, List.mem_permutations.mp hp, hfp.symm, h1, ?_⟩
    intro q hq
    have hqmem : 0 :: (q ++ [0]) ∈
        (List.range' 1 (n - 1)).permutations.map (fun p => 0 :: (p ++ [0])) :=
      List.mem_map.mpr ⟨q, List.mem_permutations.mpr hq, rfl⟩
    rw [heq] at hqmem
    rcases List.mem_cons.mp hqmem with h | h
    · calc (rs.foldl (bfStep d) (r, route_distance d r)).2 ≤ route_distance d r := h3
        _ = route_distance d (0 :: (q ++ [0])) := by rw [h]
    · exact h4 _ h

theorem range_eq_cons_range' (n : ℕ) (hn : 1 ≤ n) :
    List.range n = 0 :: List.range' 1 (n - 1) := by
  have h2 : n - 1 + 1 = n := by omega
  rw [List.range_eq_range', ← h2, List.range'_succ]
  simp

theorem bruteForceCore_closedTour (n : ℕ) (d : ℕ → ℕ → B) (hn : 2 ≤ n) :
    isClosedTour (bruteForceCore n d).route n := by
  obtain ⟨p, hp, hroute, _, _⟩ := bruteForceCore_spec n d hn
  have hplen : p.length = n - 1 := by
    have := hp.length_eq
    simpa [List.length_range'] using this
  have hclen : (0 :: p).length = n := by simp [hplen]; omega
  refine ⟨?_, ?_, ?_⟩
  · rw [hroute]; simp [hplen]; omega
  · rw [hroute]
    have : (0 : ℕ) :: (p ++ [0]) = (0 :: p) ++ [0] := by simp
    rw [this, List.getLast?_concat]
    simp
  · have : (0 : ℕ) :: (p ++ [0]) = (0 :: p) ++ [0] := by simp
    rw [hroute, this, List.take_left' hclen, range_eq_cons_range' n (by omega)]
    exact hp.cons 0

/-! ## Structure of the sampled (quantum-inspired) search -/

theorem qitFold_some (n : ℕ) (d : ℕ → ℕ → B) (starts : ℕ → ℕ) :
    ∀ (l : List ℕ) (b : Solution B),
      ∃ s, l.foldl (qitStep n d starts) (some b) = some s ∧
        s.distance ≤ b.distance ∧
        (∀ i ∈ l, s.distance ≤ (nnFrom n d (starts i)).distance) ∧
        (s = b ∨ ∃ i ∈ l, s = nnFrom n d (starts i)) := by
  intro l
  induction l with
  | nil => intro b; exact ⟨b, rfl, le_rfl, by simp, Or.inl rfl⟩
  | cons i is ih =>
    intro b
    simp only [List.foldl_cons]
    by_cases hc : (nnFrom n d (starts i)).distance < b.distance
    · have hstep : qitStep n d starts (some b) i = some (nnFrom n d (starts i)) := by
        simp [qitStep, hc]
      rw [hstep]
      obtain ⟨s, hs, hle, hall, hid⟩ := ih (nnFrom n d (starts i))
      refine ⟨s, hs, le_trans hle (le_of_lt hc), ?_, ?_⟩
      · intro j hj
        rcases List.mem_cons.mp hj with rfl | hj
        · exact hle
        · exact hall j hj
      · rcases hid with h | ⟨j, hj, h⟩
        · exact Or.inr ⟨i, List.mem_cons_self i is, h⟩
        · exact Or.inr ⟨j, List.mem_cons_of_mem _ hj, h⟩
    · have hstep : qitStep n d starts (some b) i = some b := by
        simp [qitStep, hc]
      rw [hstep]
      obtain ⟨s, hs, hle, hall, hid⟩ := ih b
      refine ⟨s, hs, hle, ?_, ?_⟩
      · intro j hj
        rcases List.mem_cons.mp hj with rfl | hj
        · exact le_trans hle (le_of_not_lt hc)
        · exact hall j hj
      · rcases hid with h | ⟨j, hj, h⟩
        · exact Or.inl h
        · exact Or.inr ⟨j, List.mem_cons_of_mem _ hj, h⟩

theorem quantumInspiredCore_spec (n : ℕ) (d : ℕ → ℕ → B) (shots : ℕ)
    (starts : ℕ → ℕ) (hk : 1 ≤ qitIterations shots) :
    ∃ s, quantumInspiredCore n d shots starts = some s ∧
      (∀ i < qitIterations shots, s.distance ≤ (nnFrom n d (starts i)).distance) ∧
      (∃ j < qitIterations shots, s = nnFrom n d (starts j)) := by
  unfold quantumInspiredCore
  rw [range_eq_cons_range' _ hk]
  simp only [List.foldl_cons]
  have hstep : qitStep n d starts none 0 = some (nnFrom n d (starts 0)) := by
    simp [qitStep]
  rw [hstep]
  obtain ⟨s, hs, hle, hall, hid⟩ := qitFold_some n d starts
    (List.range' 1 (qitIterations shots - 1)) (nnFrom n d (starts 0))
  refine ⟨s, hs, ?_, ?_⟩
  · intro i hi
    by_cases h0 : i = 0
    · subst h0; exact hle
    · refine hall i ?_
      rw [List.mem_range']
      exact ⟨i - 1, by omega, by omega⟩
  · rcases hid with h | ⟨j, hj, h⟩
    · exact ⟨0, by omega, h⟩
    · rw [List.mem_range'] at hj
      obtain ⟨m, hm, rfl⟩ := hj
      exact ⟨1 + 1 * m, by omega, h⟩

theorem quantumInspiredCore_none (n : ℕ) (d : ℕ → ℕ → B) (shots : ℕ)
    (starts : ℕ → ℕ) (h : shots < 100) :
    quantumInspiredCore n d shots starts = none := by
  unfold quantumInspiredCore
  have h0 : qitIterations shots = 0 := by
    unfold qitIterations
    rw [Nat.div_eq_of_lt h]
    simp
  rw [h0]
  rfl

theorem quantumInspiredCore_zero (n : ℕ) (d : ℕ → ℕ → B) (shots : ℕ)
    (starts : ℕ → ℕ) (h0 : qitIterations shots = 0) :
    quantumInspiredCore n d shots starts = none := by
  unfold quantumInspiredCore
  rw [h0]
  rfl

theorem quantumInspiredCore_mem (n : ℕ) (d : ℕ → ℕ → B) (shots : ℕ)
    (starts : ℕ → ℕ) (s : Solution B)
    (h : quantumInspiredCore n d shots starts = some s) :
    ∃ j < qitIterations shots, s = nnFrom n d (starts j) := by
  by_cases hk : 1 ≤ qitIterations shots
  · obtain ⟨s', hs', _, j, hj, hjeq⟩ :=
      quantumInspiredCore_spec n d shots starts hk
    rw [h] at hs'
    obtain rfl : s = s' := Option.some_inj.mp hs'
    exact ⟨j, hj, hjeq⟩
  · rw [quantumInspiredCore_zero n d shots starts (by omega)] at h
    cases h

/-! ## Concrete inputs used to instantiate the general theorems -/

/-- A minimal valid city list (two distinct cities). -/
def citiesW : List City := [(0, 0), (1, 0)]

/-- A degenerate sampled-start stream: always start from city 0. -/
def zeroStarts : ℕ → ℕ := fun _ => 0

/-! ## Claims -/

/-- C1: for every city list of size n >= 2 and every valid start index, the
route returned by any solver (nearest-neighbor from any start, brute force,
or sampled best-of) is a closed tour: length n+1, first entry equals last
entry, and the first n entries contain every index in [0, n) exactly once. -/
theorem C1_every_solver_returns_closed_tour (cities : List City)
    (start shots : ℕ) (starts : ℕ → ℕ)
    (hn : 2 ≤ cities.length) (hs : start < cities.length)
    (hstarts : ∀ i, starts i < cities.length) :
    isClosedTour (nearest_neighbor_tsp_from_start cities start).route
      cities.length ∧
    isClosedTour (brute_force_tsp cities).route cities.length ∧
    (∀ s, quantum_inspired_tsp cities shots starts = some s →
      isClosedTour s.route cities.length) := by
  refine ⟨nnFrom_closedTour _ _ _ hs, bruteForceCore_closedTour _ _ hn, ?_⟩
  intro s hsome
  obtain ⟨j, _, rfl⟩ := quantumInspiredCore_mem cities.length
    (cityDist cities) shots starts s hsome
  exact nnFrom_closedTour _ _ _ (hstarts j)

/-- Witness for C1 at a concrete two-city input. -/
theorem C1_witness :
    (2 ≤ citiesW.length ∧ 0 < citiesW.length ∧
      ∀ i : ℕ, zeroStarts i < citiesW.length) ∧
    (isClosedTour (nearest_neighbor_tsp_from_start citiesW 0).route
        citiesW.length ∧
      isClosedTour (brute_force_tsp citiesW).route citiesW.length ∧
      ∀ s, quantum_inspired_tsp citiesW 1000 zeroStarts = some s →
        isClosedTour s.route citiesW.length) :=
  ⟨⟨by simp [citiesW], by simp [citiesW], fun i => by simp [citiesW, zeroStarts]⟩,
    C1_every_solver_returns_closed_tour citiesW 0 1000 zeroStarts
      (by simp [citiesW]) (by simp [citiesW])
      (fun i => by simp [citiesW, zeroStarts])⟩

/-- C2: for every city list of size n >= 2, the distance field returned by
every solver equals the sum of `calculate_distance` over consecutive pairs of
the returned route, including the closing edge. -/
theorem C2_distance_is_route_sum (cities : List City) (start shots : ℕ)
    (starts : ℕ → ℕ) (hn : 2 ≤ cities.length) (hs : start < cities.length) :
    (nearest_neighbor_tsp_from_start cities start).distance =
      route_distance (cityDist cities)
        (nearest_neighbor_tsp_from_start cities start).route ∧
    (brute_force_tsp cities).distance =
      route_distance (cityDist cities) (brute_force_tsp cities).route ∧
    (∀ s, quantum_inspired_tsp cities shots starts = some s →
      s.distance = route_distance (cityDist cities) s.route) := by
  refine ⟨nnFrom_distance _ _ _, ?_, ?_⟩
  · obtain ⟨p, _, _, hd, _⟩ :=
      bruteForceCore_spec cities.length (cityDist cities) hn
    exact hd
  · intro s hsome
    obtain ⟨j, _, rfl⟩ := quantumInspiredCore_mem cities.length
      (cityDist cities) shots starts s hsome
    exact nnFrom_distance _ _ _

/-- Witness for C2 at a concrete two-city input. -/
theorem C2_witness :
    (2 ≤ citiesW.length ∧ 0 < citiesW.length) ∧
    ((nearest_neighbor_tsp_from_start citiesW 0).distance =
      route_distance (cityDist citiesW)
        (nearest_neighbor_tsp_from_start citiesW 0).route ∧
    (brute_force_tsp citiesW).distance =
      route_distance (cityDist citiesW) (brute_force_tsp citiesW).route ∧
    ∀ s, quantum_inspired_tsp citiesW 1000 zeroStarts = some s →
      s.distance = route_distance (cityDist citiesW) s.route) :=
  ⟨⟨by simp [citiesW], by simp [citiesW]⟩,
    C2_distance_is_route_sum citiesW 0 1000 zeroStarts
      (by simp [citiesW]) (by simp [citiesW])⟩

/-- C5: for every city list of size 2 <= n <= 8, the distance returned by
`brute_force_tsp` is the minimum total closed-tour distance over all
permutations of cities 1..n-1 anchored at city 0, and in particular it is at
most the distance returned by `nearest_neighbor_tsp` on the same city list. -/
theorem C5_brute_force_is_optimal (cities : List City)
    (hn : 2 ≤ cities.length) (h8 : cities.length ≤ 8) :
    (∀ q, q.Perm (List.range' 1 (cities.length - 1)) →
      (brute_force_tsp cities).distance ≤
        route_distance (cityDist cities) (0 :: (q ++ [0]))) ∧
    (∃ p, p.Perm (List.range' 1 (cities.length - 1)) ∧
      (brute_force_tsp cities).distance =
        route_distance (cityDist cities) (0 :: (p ++ [0]))) ∧
    (brute_force_tsp cities).distance ≤ (nearest_neighbor_tsp cities).distance := by
  simp only [brute_force_tsp, nearest_neighbor_tsp, nearest_neighbor_tsp_from_start]
  obtain ⟨p, hp, hroute, hdist, hmin⟩ :=
    bruteForceCore_spec cities.length (cityDist cities) hn
  refine ⟨hmin, ⟨p, hp, by rw [hdist, hroute]⟩, ?_⟩
  obtain ⟨t, ht, htperm⟩ := nnFrom_route_shape cities.length (cityDist cities) 0
    (by omega)
  have hterase : ((List.range cities.length).erase 0) =
      List.range' 1 (cities.length - 1) := by
    rw [range_eq_cons_range' _ (by omega), List.erase_cons_head]
  have htp : t.Perm (List.range' 1 (cities.length - 1)) := hterase ▸ htperm
  have hnnd : (nnFrom cities.length (cityDist cities) 0).distance =
      route_distance (cityDist cities) (0 :: (t ++ [0])) := by
    have hd := nnFrom_distance cities.length (cityDist cities) 0
    have hshape : (nnFrom cities.length (cityDist cities) 0).route =
        0 :: (t ++ [0]) := by rw [ht]; simp
    rw [hd, hshape]
  rw [hnnd]
  exact hmin t htp

/-- Witness for C5 at a concrete two-city input. -/
theorem C5_witness :
    (2 ≤ citiesW.length ∧ citiesW.length ≤ 8) ∧
    ((∀ q, q.Perm (List.range' 1 (citiesW.length - 1)) →
      (brute_force_tsp citiesW).distance ≤
        route_distance (cityDist citiesW) (0 :: (q ++ [0]))) ∧
    (∃ p, p.Perm (List.range' 1 (citiesW.length - 1)) ∧
      (brute_force_tsp citiesW).distance =
        route_distance (cityDist citiesW) (0 :: (p ++ [0]))) ∧
    (brute_force_tsp citiesW).distance ≤ (nearest_neighbor_tsp citiesW).distance) :=
  ⟨⟨by simp [citiesW], by simp [citiesW]⟩,
    C5_brute_force_is_optimal citiesW (by simp [citiesW]) (by simp [citiesW])⟩

/-- C6: for every city list of size n >= 2 and every sampled start stream,
whenever at least one trial runs, the sampled constructor returns a solution
whose distance is at most that of a single nearest-neighbor run from each of
the sampled starts, and at most that of a nearest-neighbor run from start 0
whenever 0 is among the sampled starts. -/
theorem C6_sampled_best_of (cities : List City) (shots : ℕ) (starts : ℕ → ℕ)
    (hn : 2 ≤ cities.length) (hk : 1 ≤ qitIterations shots) :
    ∃ s, quantum_inspired_tsp cities shots starts = some s ∧
      (∀ i < qitIterations shots,
        s.distance ≤ (nearest_neighbor_tsp_from_start cities (starts i)).distance) ∧
      (∀ i < qitIterations shots, starts i = 0 →
        s.distance ≤ (nearest_neighbor_tsp cities).distance) := by
  obtain ⟨s, hs, hall, _⟩ :=
    quantumInspiredCore_spec cities.length (cityDist cities) shots starts hk
  refine ⟨s, hs, fun i hi => hall i hi, fun i hi h0 => ?_⟩
  have := hall i hi
  rw [h0] at this
  exact this

/-- Witness for C6 at a concrete two-city input. -/
theorem C6_witness :
    (2 ≤ citiesW.length ∧ 1 ≤ qitIterations 1000) ∧
    (∃ s, quantum_inspired_tsp citiesW 1000 zeroStarts = some s ∧
      (∀ i < qitIterations 1000,
        s.distance ≤
          (nearest_neighbor_tsp_from_start citiesW (zeroStarts i)).distance) ∧
      (∀ i < qitIterations 1000, zeroStarts i = 0 →
        s.distance ≤ (nearest_neighbor_tsp citiesW).distance)) :=
  ⟨⟨by simp [citiesW], by decide⟩,
    C6_sampled_best_of citiesW 1000 zeroStarts (by simp [citiesW]) (by decide)⟩

/-- C9: for every positive shots value, the number of greedy trials performed
by the sampled constructor is `min(shots // 100, 50)`, hence never exceeds 50. -/
theorem C9_trials_capped (shots : ℕ) (hpos : 0 < shots) :
    qitIterations shots = min (shots / 100) 50 ∧
    (List.range (qitIterations shots)).length = min (shots / 100) 50 ∧
    qitIterations shots ≤ 50 :=
  ⟨rfl, by simp [qitIterations], min_le_right _ _⟩

/-- Witness for C9 at a concrete shots value far above the cap. -/
theorem C9_witness :
    0 < 123456 ∧
    (qitIterations 123456 = min (123456 / 100) 50 ∧
      (List.range (qitIterations 123456)).length = min (123456 / 100) 50 ∧
      qitIterations 123456 ≤ 50) :=
  ⟨by decide, C9_trials_capped 123456 (by decide)⟩

/-- Distance from a city to itself is zero. -/
theorem calculate_distance_self (c : City) : calculate_distance c c = 0 := by
  simp [calculate_distance]

/-- A single-city input. -/
def citySingle : List City := [(0, 0)]

/-- C8 counterexample: on a single city the greedy constructor returns the
two-element route `[0, 0]` (the start is appended again to close the tour),
not a single-element route as claimed. -/
theorem C8_counterexample :
    citySingle.length = 1 ∧
    (nearest_neighbor_tsp citySingle).route = [0, 0] ∧
    (nearest_neighbor_tsp citySingle).route.length ≠ 1 := by
  have hl : citySingle.length = 1 := rfl
  have hroute : (nearest_neighbor_tsp citySingle).route = [0, 0] := by
    unfold nearest_neighbor_tsp nearest_neighbor_tsp_from_start nnFrom
    rw [hl, if_neg (by decide : ¬ (1 = 0)),
      show (List.range 1).filter (fun i => i ≠ 0) = [] from by decide, nnLoop]
  exact ⟨hl, hroute, by rw [hroute]; decide⟩

/-- C8 amended: 0 cities give an empty route with distance 0; a single city
gives the two-element route `[0, 0]` (start repeated to close the tour) with
distance 0. -/
theorem C8_degenerate_amended (c : City) :
    nearest_neighbor_tsp ([] : List City) = ⟨[], 0⟩ ∧
    (nearest_neighbor_tsp [c]).route = [0, 0] ∧
    (nearest_neighbor_tsp [c]).distance = 0 := by
  refine ⟨rfl, ?_, ?_⟩
  · unfold nearest_neighbor_tsp nearest_neighbor_tsp_from_start nnFrom
    rw [show ([c] : List City).length = 1 from rfl, if_neg (by decide : ¬ (1 = 0)),
      show (List.range 1).filter (fun i => i ≠ 0) = [] from by decide, nnLoop]
  · unfold nearest_neighbor_tsp nearest_neighbor_tsp_from_start nnFrom
    rw [show ([c] : List City).length = 1 from rfl, if_neg (by decide : ¬ (1 = 0)),
      show (List.range 1).filter (fun i => i ≠ 0) = [] from by decide, nnLoop]
    show cityDist [c] 0 0 = 0
    unfold cityDist
    show calculate_distance c c = 0
    exact calculate_distance_self c

/-- Witness for the amended C8 at a concrete city. -/
theorem C8_witness :
    nearest_neighbor_tsp ([] : List City) = ⟨[], 0⟩ ∧
    (nearest_neighbor_tsp [(((0 : ℝ), (0 : ℝ)) : City)]).route = [0, 0] ∧
    (nearest_neighbor_tsp [(((0 : ℝ), (0 : ℝ)) : City)]).distance = 0 :=
  C8_degenerate_amended ((0 : ℝ), (0 : ℝ))

/-! ## Handler-level results -/

theorem lambda_handler_quantum_shape (maxQubits : ℕ) (cities : List City)
    (algorithm : String) (shots : ℕ) (starts : ℕ → ℕ)
    (h2 : ¬ cities.length < 2) :
    ∃ a sol, ∀ storeOk, lambda_handler_quantum maxQubits cities algorithm
        shots starts storeOk =
      if storeOk then .success 200 a sol
      else .failure 500 "Internal server error" := by
  unfold lambda_handler_quantum
  simp only [if_neg h2]
  rcases hO : (if (if maxQubits < cities.length then "classical_fallback"
      else algorithm) = "classical_fallback"
      then some (nearest_neighbor_tsp cities)
      else quantum_inspired_tsp cities shots starts) with _ | s
  · refine ⟨"classical_fallback", nearest_neighbor_tsp cities, fun storeOk => ?_⟩
    simp only [hO]
  · refine ⟨(if maxQubits < cities.length then "classical_fallback"
      else algorithm), s, fun storeOk => ?_⟩
    simp only [hO]

/-- C3 counterexample: a request with 2 cities (valid input) for which the
quantum handler returns a 500 error, because the DynamoDB write performed by
`store_result` fails and `store_result` re-raises that failure. -/
theorem C3_counterexample :
    2 ≤ citiesW.length ∧
    lambda_handler_quantum 10 citiesW "classical_fallback" 1000 zeroStarts
      false = .failure 500 "Internal server error" := by
  constructor
  · simp [citiesW]
  · unfold lambda_handler_quantum
    simp only [citiesW]
    norm_num

/-- C3 amended: with at least 2 cities the quantum handler returns a 200
Solution response whenever the result store succeeds; with fewer than 2 cities
it returns a 400 client error without invoking a solver; the only other error
response is the 500 produced when the result store fails. -/
theorem C3_success_unless_invalid_or_store_failure (maxQubits : ℕ)
    (cities : List City) (algorithm : String) (shots : ℕ) (starts : ℕ → ℕ)
    (storeOk : Bool) :
    (cities.length < 2 →
      lambda_handler_quantum maxQubits cities algorithm shots starts storeOk =
        .failure 400 "At least 2 cities are required") ∧
    (2 ≤ cities.length → storeOk = true →
      ∃ a sol, lambda_handler_quantum maxQubits cities algorithm shots starts
        storeOk = .success 200 a sol) ∧
    (∀ c e, lambda_handler_quantum maxQubits cities algorithm shots starts
        storeOk = .failure c e → cities.length < 2 ∨ storeOk = false) := by
  refine ⟨?_, ?_, ?_⟩
  · intro h2
    unfold lambda_handler_quantum
    rw [if_pos h2]
  · intro h2 hstore
    obtain ⟨a, sol, hshape⟩ := lambda_handler_quantum_shape maxQubits cities
      algorithm shots starts (by omega)
    refine ⟨a, sol, ?_⟩
    rw [hshape storeOk, hstore]
    rfl
  · intro c e hfail
    by_cases h2 : cities.length < 2
    · exact Or.inl h2
    · obtain ⟨a, sol, hshape⟩ := lambda_handler_quantum_shape maxQubits cities
        algorithm shots starts h2
      rw [hshape storeOk] at hfail
      cases storeOk
      · exact Or.inr rfl
      · simp at hfail

/-- Witness for the amended C3 at a concrete valid input with a successful
store. -/
theorem C3_witness :
    (2 ≤ citiesW.length) ∧
    ((citiesW.length < 2 →
      lambda_handler_quantum 10 citiesW "qaoa" 1000 zeroStarts true =
        .failure 400 "At least 2 cities are required") ∧
    (2 ≤ citiesW.length → true = true →
      ∃ a sol, lambda_handler_quantum 10 citiesW "qaoa" 1000 zeroStarts true =
        .success 200 a sol) ∧
    (∀ c e, lambda_handler_quantum 10 citiesW "qaoa" 1000 zeroStarts true =
        .failure c e → citiesW.length < 2 ∨ true = false)) :=
  ⟨by simp [citiesW],
    C3_success_unless_invalid_or_store_failure 10 citiesW "qaoa" 1000
      zeroStarts true⟩

/-- Nine collinear cities, above the classical brute-force ceiling of 8. -/
def cities9 : List City :=
  [(0, 0), (1, 0), (2, 0), (3, 0), (4, 0), (5, 0), (6, 0), (7, 0), (8, 0)]

/-- C4 counterexample: requesting `brute_force` with 9 cities downgrades the
solver to nearest-neighbor (the `n <= 8` guard fails), yet the classical
handler response still reports the originally requested name
`brute_force`. -/
theorem C4_counterexample :
    8 < cities9.length ∧
    lambda_handler_classical cities9 "brute_force" =
      .success 200 "brute_force" (nearest_neighbor_tsp cities9) ∧
    (lambda_handler_classical cities9 "brute_force").reported =
      some "brute_force" := by
  have hl : cities9.length = 9 := rfl
  have heq : lambda_handler_classical cities9 "brute_force" =
      .success 200 "brute_force" (nearest_neighbor_tsp cities9) := by
    unfold lambda_handler_classical
    rw [hl]
    norm_num
  exact ⟨by rw [hl]; omega, heq, by rw [heq]; rfl⟩

/-- C4 amended: the size downgrade of the quantum handler (n above `max_qubits`)
is observable — the response reports `classical_fallback`, never the
requested name; but the classical handler reports the originally requested
`brute_force` even when the size guard downgrades the solver to
nearest-neighbor. -/
theorem C4_downgrade_reporting (maxQubits : ℕ) (cities cities2 : List City)
    (algorithm : String) (shots : ℕ) (starts : ℕ → ℕ)
    (hq : maxQubits < cities.length) (h2 : 2 ≤ cities.length)
    (h8 : 8 < cities2.length) :
    (lambda_handler_quantum maxQubits cities algorithm shots starts
        true).reported = some "classical_fallback" ∧
    lambda_handler_classical cities2 "brute_force" =
      .success 200 "brute_force" (nearest_neighbor_tsp cities2) := by
  constructor
  · unfold lambda_handler_quantum
    rw [if_neg (by omega), if_pos hq]
    norm_num
    rfl
  · unfold lambda_handler_classical
    rw [if_neg (by omega)]
    rw [if_neg (by simp), if_neg (by simp; omega)]

/-- Witness for the amended C4 at concrete inputs. -/
theorem C4_witness :
    (1 < citiesW.length ∧ 2 ≤ citiesW.length ∧ 8 < cities9.length) ∧
    ((lambda_handler_quantum 1 citiesW "qaoa" 1000 zeroStarts true).reported =
      some "classical_fallback" ∧
    lambda_handler_classical cities9 "brute_force" =
      .success 200 "brute_force" (nearest_neighbor_tsp cities9)) :=
  ⟨⟨by simp [citiesW], by simp [citiesW], by simp [cities9]⟩,
    C4_downgrade_reporting 1 citiesW cities9 "qaoa" 1000 zeroStarts
      (by simp [citiesW]) (by simp [citiesW]) (by simp [cities9])⟩

/-- C10: with 0 < shots < 100 the sampled constructor performs zero trials
and returns `None`; a `qaoa` or `vqe` request with a valid city count then
fails internally (metadata is attached to `None`), is caught, and is answered
through the fallback branch with algorithm `classical_fallback`. -/
theorem C10_low_shots_fallback (maxQubits : ℕ) (cities : List City)
    (algorithm : String) (shots : ℕ) (starts : ℕ → ℕ)
    (halg : algorithm = "qaoa" ∨ algorithm = "vqe") (hpos : 0 < shots)
    (h100 : shots < 100) (hn : 2 ≤ cities.length)
    (hq : cities.length ≤ maxQubits) :
    quantum_inspired_tsp cities shots starts = none ∧
    lambda_handler_quantum maxQubits cities algorithm shots starts true =
      .success 200 "classical_fallback" (nearest_neighbor_tsp cities) := by
  have hnone : quantum_inspired_tsp cities shots starts = none := by
    unfold quantum_inspired_tsp
    exact quantumInspiredCore_none _ _ _ _ h100
  refine ⟨hnone, ?_⟩
  rcases halg with rfl | rfl <;>
    (unfold lambda_handler_quantum
     simp only [if_neg (show ¬ cities.length < 2 by omega),
       if_neg (show ¬ maxQubits < cities.length by omega), hnone]
     norm_num
     rw [if_neg (by decide)])

/-- Witness for C10 at a concrete input with shots = 50. -/
theorem C10_witness :
    (("qaoa" = "qaoa" ∨ "qaoa" = "vqe") ∧ 0 < 50 ∧ 50 < 100 ∧
      2 ≤ citiesW.length ∧ citiesW.length ≤ 10) ∧
    (quantum_inspired_tsp citiesW 50 zeroStarts = none ∧
    lambda_handler_quantum 10 citiesW "qaoa" 50 zeroStarts true =
      .success 200 "classical_fallback" (nearest_neighbor_tsp citiesW)) :=
  ⟨⟨Or.inl rfl, by decide, by decide, by simp [citiesW], by simp [citiesW]⟩,
    C10_low_shots_fallback 10 citiesW "qaoa" 50 zeroStarts (Or.inl rfl)
      (by decide) (by decide) (by simp [citiesW]) (by simp [citiesW])⟩

/-! ## Concrete unit-square scenario -/

/-- The unit square, corners in the order given by the spec scenario. -/
def cities4 : List City := [(0, 0), (1, 0), (1, 1), (0, 1)]

theorem d4_01 : cityDist cities4 0 1 = 1 := by
  unfold cityDist cities4 calculate_distance
  norm_num [Real.sqrt_one]

theorem d4_02 : cityDist cities4 0 2 = Real.sqrt 2 := by
  unfold cityDist cities4 calculate_distance
  norm_num

theorem d4_03 : cityDist cities4 0 3 = 1 := by
  unfold cityDist cities4 calculate_distance
  norm_num [Real.sqrt_one]

theorem d4_12 : cityDist cities4 1 2 = 1 := by
  unfold cityDist cities4 calculate_distance
  norm_num [Real.sqrt_one]

theorem d4_13 : cityDist cities4 1 3 = Real.sqrt 2 := by
  unfold cityDist cities4 calculate_distance
  norm_num

theorem d4_23 : cityDist cities4 2 3 = 1 := by
  unfold cityDist cities4 calculate_distance
  norm_num [Real.sqrt_one]

theorem d4_30 : cityDist cities4 3 0 = 1 := by
  unfold cityDist cities4 calculate_distance
  norm_num [Real.sqrt_one]

theorem sqrt_two_not_lt_one : ¬ Real.sqrt 2 < 1 := by
  have h1 : (1 : ℝ) ≤ Real.sqrt 2 := by
    rw [show (1 : ℝ) = Real.sqrt 1 by rw [Real.sqrt_one]]
    exact Real.sqrt_le_sqrt (by norm_num)
  exact not_lt.mpr h1

theorem nn_cities4_eval : nearest_neighbor_tsp cities4 =
    ⟨[0, 1, 2, 3, 0], cityDist cities4 0 1 + (cityDist cities4 1 2 +
      (cityDist cities4 2 3 + cityDist cities4 3 0))⟩ := by
  have e0 : nnLoop (cityDist cities4) 0 3 [] = ([0], cityDist cities4 3 0) := by
    rw [nnLoop]
  have e1 : nnLoop (cityDist cities4) 0 2 [3] =
      ([3, 0], cityDist cities4 2 3 + cityDist cities4 3 0) := by
    rw [nnLoop]
    simp only [argminKey, List.foldl_nil, List.erase_cons_head, e0]
  have e2 : nnLoop (cityDist cities4) 0 1 [2, 3] =
      ([2, 3, 0], cityDist cities4 1 2 +
        (cityDist cities4 2 3 + cityDist cities4 3 0)) := by
    rw [nnLoop]
    have hmin : argminKey (cityDist cities4 1) 2 [3] = 2 := by
      simp only [argminKey, List.foldl_cons, List.foldl_nil, d4_13, d4_12]
      rw [if_neg sqrt_two_not_lt_one]
    simp only [hmin, List.erase_cons_head, e1]
  have e3 : nnLoop (cityDist cities4) 0 0 [1, 2, 3] =
      ([1, 2, 3, 0], cityDist cities4 0 1 + (cityDist cities4 1 2 +
        (cityDist cities4 2 3 + cityDist cities4 3 0))) := by
    rw [nnLoop]
    have hmin : argminKey (cityDist cities4 0) 1 [2, 3] = 1 := by
      simp only [argminKey, List.foldl_cons, List.foldl_nil, d4_01, d4_02, d4_03]
      rw [if_neg sqrt_two_not_lt_one, d4_01, if_neg (lt_irrefl (1 : ℝ))]
    simp only [hmin, List.erase_cons_head, e2]
  unfold nearest_neighbor_tsp nearest_neighbor_tsp_from_start nnFrom
  rw [show cities4.length = 4 from rfl, if_neg (by decide : ¬ (4 = 0)),
    show (List.range 4).filter (fun i => i ≠ 0) = [1, 2, 3] from by decide, e3]

/-- C7: on the unit square `[[0,0],[1,0],[1,1],[0,1]]` the greedy solver
returns the route `[0, 1, 2, 3, 0]` (ties at distance 1 broken towards the
lowest index), which starts and ends at index 0 and has total distance 4. -/
theorem C7_unit_square_greedy :
    (nearest_neighbor_tsp cities4).route = [0, 1, 2, 3, 0] ∧
    (nearest_neighbor_tsp cities4).route.head? = some 0 ∧
    (nearest_neighbor_tsp cities4).route.getLast? = some 0 ∧
    (nearest_neighbor_tsp cities4).distance = 4 := by
  rw [nn_cities4_eval]
  refine ⟨rfl, rfl, rfl, ?_⟩
  rw [d4_01, d4_12, d4_23, d4_30]
  norm_num
